import Mathlib

/-!
Verification development for the RAG PDF chat system
(repository: tylerwelsh/The-AI-Engineer-Challenge).

The repository snapshot contains the Next.js frontend
(`frontend/app/components/ChatInterface.tsx`, in an older plain-chat
version and the current RAG version with topic suggestions) together
with its documentation.  The FastAPI backend (`api/app.py`) that
implements the core pipeline — text chunking, vector index, retrieval,
answer synthesis and topic suggestion — is not part of the snapshot;
only its HTTP callers in the frontend and the written specification
describe it.  Definitions for those backend components are therefore
modelled from the specification (each such definition says so in its
doc comment), while the frontend state transitions (`clearPdf`,
`sendMessage`, `handlePdfUpload`) are translated directly from
`ChatInterface.tsx`.
-/

namespace RagChat

/-! ### Definitions: Chunker -/

/-- Modelled from the spec: the missing backend Chunker (§4.2 of the
spec; `api/app.py` is not in the snapshot).  The sliding window walks
the text emitting `text.take chunkSize` and advancing by
`step = chunkSize - overlap`; it stops once the remaining text no
longer fills a whole window (the remainder beyond the next window
start is at most `overlap`), which avoids zero-length trailing
chunks.  `fuel` bounds the recursion by the initial text length so the
walk is structurally recursive; each real step consumes at least one
character whenever `0 < step`. -/
def chunkAux (chunkSize step : Nat) : Nat → List Char → List (List Char)
  | 0, text => [text]
  | fuel + 1, text =>
    if chunkSize < text.length then
      text.take chunkSize :: chunkAux chunkSize step fuel (text.drop step)
    else
      [text]

/-- Modelled from the spec: Chunker entry point (§4.2).  Empty text
yields no window at all (the spec's walk emits one Chunk per window
and forbids zero-length chunks), otherwise the sliding-window walk of
`chunkAux` runs with fuel equal to the text length. -/
def chunkText (chunkSize overlap : Nat) (text : List Char) : List (List Char) :=
  if text.length = 0 then [] else chunkAux chunkSize (chunkSize - overlap) text.length text

/-- Chunker lifted to `String` (the backend chunks the extracted PDF
text; defaults are `chunkSize = 1000`, `overlap = 200`). -/
def chunkString (chunkSize overlap : Nat) (text : String) : List String :=
  (chunkText chunkSize overlap text.data).map List.asString

/-- Re-concatenation of a chunk list with the overlapping prefixes
removed: the first chunk is kept whole and every later chunk loses its
first `overlap` characters. -/
def reassemble (overlap : Nat) : List (List Char) → List Char
  | [] => []
  | c :: rest => c ++ (rest.map (List.drop overlap)).flatten

/-! ### Definitions: embeddings and cosine similarity -/

/-- Dot product of two embedding vectors: componentwise products of
the paired coordinates, summed. -/
def dot (a b : List ℚ) : ℚ := (List.zipWith (· * ·) a b).sum

/-- Squared Euclidean norm of an embedding vector. -/
def normSq (a : List ℚ) : ℚ := dot a a

/-- Modelled from the spec: cosine similarity
`dot(a,b) / (|a| * |b|)` with the zero-vector guard (treated as
similarity 0) from §4.4 — the backend `api/app.py` is not in the
snapshot.  To keep scores in exact rational arithmetic the value is
represented on the order-isomorphic scale `x ↦ x * |x|` (the signed
square): `simScore a b` equals `sign(cos) * cos²`, a strictly
monotone image of the cosine, so score comparisons, the ranking and
the maximal value 1 attained by a vector against itself are all
preserved while never taking square roots of the norms. -/
def simScore (a b : List ℚ) : ℚ :=
  if normSq a = 0 ∨ normSq b = 0 then 0
  else dot a b * |dot a b| / (normSq a * normSq b)

/-! ### Definitions: Vector Index -/

/-- Modelled from the spec: the ranking order of `query` (§4.4) —
higher score first, ties broken by original chunk order (lower index
first).  Each candidate is a (chunk text, score, original index)
triple; sorting by this total order is exactly the stable
descending-by-score sort the spec describes. -/
def rankLE (x y : String × ℚ × Nat) : Prop :=
  y.2.1 < x.2.1 ∨ (x.2.1 = y.2.1 ∧ x.2.2 ≤ y.2.2)

instance : DecidableRel rankLE := fun x y => by
  unfold rankLE
  infer_instance

instance : IsTotal (String × ℚ × Nat) rankLE := by
  constructor
  intro a b
  rcases lt_trichotomy a.2.1 b.2.1 with h | h | h
  · exact Or.inr (Or.inl h)
  · rcases Nat.le_total a.2.2 b.2.2 with hi | hi
    · exact Or.inl (Or.inr ⟨h, hi⟩)
    · exact Or.inr (Or.inr ⟨h.symm, hi⟩)
  · exact Or.inl (Or.inl h)

instance : IsTrans (String × ℚ × Nat) rankLE := by
  constructor
  intro a b c hab hbc
  rcases hab with h1 | ⟨e1, i1⟩
  · rcases hbc with h2 | ⟨e2, _⟩
    · exact Or.inl (h2.trans h1)
    · exact Or.inl (e2 ▸ h1)
  · rcases hbc with h2 | ⟨e2, i2⟩
    · exact Or.inl (lt_of_lt_of_eq h2 e1.symm)
    · exact Or.inr ⟨e1.trans e2, i1.trans i2⟩

/-- Modelled from the spec: score every stored (chunk, embedding)
pair against the query vector, tagging each candidate with its
original chunk index. -/
def scoreEntries (q : List ℚ) (entries : List (String × List ℚ)) : List (String × ℚ × Nat) :=
  entries.enum.map fun p => (p.2.1, simScore q p.2.2, p.1)

/-- Modelled from the spec: the exhaustive-scan ranking of §4.4 —
every stored embedding is scored against the query vector and the
candidates are sorted descending by score, ties broken by original
chunk order. -/
def rankedEntries (q : List ℚ) (entries : List (String × List ℚ)) : List (String × ℚ × Nat) :=
  (scoreEntries q entries).insertionSort rankLE

/-- Modelled from the spec: the vector-level query of the Vector
Index (§4.4) — rank every stored chunk against the query vector and
keep the top-`k` (chunk, score) pairs. -/
def queryVec (q : List ℚ) (entries : List (String × List ℚ)) (k : Nat) : List (String × ℚ) :=
  ((rankedEntries q entries).take k).map fun t => (t.1, t.2.1)

/-- Modelled from the spec: `query(text, k)` of the Vector Index
(§4.4) — embed the query text, score and rank every stored chunk by
cosine similarity, return the top-`k` (chunk, score) pairs. -/
def query (embedFn : String → List ℚ) (entries : List (String × List ℚ))
    (text : String) (k : Nat) : List (String × ℚ) :=
  queryVec (embedFn text) entries k

/-- Modelled from the spec: the Retriever (§2, §4.4, §4.5) — the
top-`k` query results kept only when they reach the minimum-relevance
threshold (the threshold value itself is a tunable constant, §9; a
result strictly below it is dropped). -/
def retrieveChunks (q : List ℚ) (entries : List (String × List ℚ)) (k : Nat)
    (threshold : ℚ) : List (String × ℚ) :=
  (queryVec q entries k).filter fun p => threshold ≤ p.2

/-! ### Definitions: Session State and the backend operations -/

/-- Modelled from the spec: the single mutable Session State record
(§3, §4.7) of the missing backend — the current document (filename
and extracted text) or none, the derived chunks, the vector index
entries with the readiness flag governing the lazy build, and the
cached topic suggestions. -/
structure Session where
  doc : Option (String × String)
  chunks : List String
  entries : List (String × List ℚ)
  indexReady : Bool
  suggestions : Option (List String)

/-- Modelled from the spec: embedding every chunk during the index
build (§4.4).  The external embedding client may fail, so it is a
function into `Option`; a failure on any chunk fails the whole build
and yields no index at all. -/
def buildIndex (embedFn : String → Option (List ℚ)) :
    List String → Option (List (String × List ℚ))
  | [] => some []
  | c :: rest =>
    match embedFn c, buildIndex embedFn rest with
    | some e, some es => some ((c, e) :: es)
    | _, _ => none

/-- Outcome of a Vector Index build. -/
inductive BuildOutcome where
  | built
  | indexBuildError
deriving DecidableEq

/-- Modelled from the spec: `build(chunks)` of the Vector Index
(§4.4) at the session level — on success the freshly embedded pairs
replace the previous index content and the readiness flag is set; on
failure the session is left exactly as it was and the failure is
reported as `indexBuildError`. -/
def buildSession (embedFn : String → Option (List ℚ)) (s : Session) : Session × BuildOutcome :=
  match buildIndex embedFn s.chunks with
  | some es => ({ s with entries := es, indexReady := true }, .built)
  | none => (s, .indexBuildError)

/-- Modelled from the spec: `upload` (§3, §6, §4.7) — the new
document replaces the previous one wholesale: the session moves to
`DocumentLoaded` with freshly derived chunks, an empty and
not-yet-ready vector index (the build is lazy and runs on the first
question, §4.7), and no cached suggestions. -/
def uploadSession (s : Session) (filename text : String) : Session :=
  { doc := some (filename, text),
    chunks := chunkString 1000 200 text,
    entries := [],
    indexReady := false,
    suggestions := none }

/-- Outcome of `ask` as seen by the caller. -/
inductive AskOutcome where
  | noDocumentError
  | indexBuildError
  | embeddingError
  | answered (answer : String) (sourcesUsed : Nat)
deriving DecidableEq

/-- Modelled from the spec: `ask(question)` (§4.5, §4.7) over the
session.  A question on an `Empty` session is rejected with
`noDocumentError`; otherwise the index is built lazily if not yet
ready (a build failure leaves the session untouched and reports
`indexBuildError`); then the question is embedded, the top-`k` chunks
at or above the minimum-relevance threshold are retrieved, and either
the external generation model is invoked on the retrieved context or —
on an empty Retrieval Result — the sentinel answer is produced locally
with `sources_used = 0`.  The final `Bool` records whether the
generation model was invoked. -/
def askSession (embedFn : String → Option (List ℚ)) (genFn : String → List String → String)
    (k : Nat) (threshold : ℚ) (s : Session) (question : String) :
    Session × AskOutcome × Bool :=
  match s.doc with
  | none => (s, .noDocumentError, false)
  | some _ =>
    match (if s.indexReady then some s.entries else buildIndex embedFn s.chunks) with
    | none => (s, .indexBuildError, false)
    | some es =>
      let sReady := { s with entries := es, indexReady := true }
      match embedFn question with
      | none => (sReady, .embeddingError, false)
      | some q =>
        let retrieved := retrieveChunks q es k threshold
        if retrieved.isEmpty then
          (sReady, .answered ("I am not sure.") 0, false)
        else
          (sReady, .answered (genFn question (retrieved.map Prod.fst)) retrieved.length, true)

/-- Result of one call to the external generation model. -/
inductive GenResult where
  | ok (response : String)
  | genError

/-- Modelled from the spec: cleaning of one suggestion line (§4.6) —
trim surrounding whitespace and strip leading numbering and bullet
markers. -/
def cleanLine (l : String) : String :=
  (l.trim.dropWhile fun c =>
    c.isDigit || c = '.' || c = ')' || c = '-' || c = '*' || c = ' ').trim

/-- Modelled from the spec: parsing of the generation model's
free-text response into a clean ordered list of question strings
(§4.6) — split into lines, strip numbering/bullets, discard empty
lines. -/
def parseSuggestions (response : String) : List String :=
  ((response.splitOn ("\n")).map cleanLine).filter fun l => l ≠ ""

/-- Modelled from the spec: `suggest_topics` (§4.6).  A cached result
is returned as-is unless the caller forces regeneration; otherwise a
bounded sample of the chunks (the `sample` parameter models the
uniform random sampling) is sent to the generation model, whose
response is parsed and cached.  Any failure — no document, or a
generation error — yields the empty suggestion list instead of an
error.  The final `Bool` records whether the generation model was
invoked. -/
def suggestTopics (genFn : List String → GenResult) (sample : List String → List String)
    (s : Session) (force : Bool) : Session × List String × Bool :=
  match s.suggestions, force with
  | some cached, false => (s, cached, false)
  | _, _ =>
    match s.doc with
    | none => (s, [], false)
    | some _ =>
      match genFn (sample s.chunks) with
      | .genError => (s, [], true)
      | .ok resp =>
        ({ s with suggestions := some (parseSuggestions resp) }, parseSuggestions resp, true)

/-! ### Definitions: frontend state transitions
(translated from `frontend/app/components/ChatInterface.tsx`,
RAG version) -/

/-- A whitespace character as recognised by the JavaScript
`String.prototype.trim` used by the frontend guards (the common
cases: space, tab, line feed, carriage return). -/
def isSpace (c : Char) : Bool :=
  (c == ' ') || (c == '\t') || (c == '\n') || (c == '\r')

/-- The JavaScript `question.trim()` / `apiKey.trim()` of
`ChatInterface.tsx`: strip leading and trailing whitespace.  Defined
over the character list so that it is structurally recursive and
evaluates inside the kernel. -/
def trimStr (s : String) : String :=
  ((s.data.dropWhile isSpace).reverse.dropWhile isSpace).reverse.asString

/-- Shape of the `/api/status` response (`StatusResponse` in
`ChatInterface.tsx`). -/
structure StatusResponse where
  status : String
  has_pdf : Bool
  pdf_filename : Option String
  chunk_count : Nat
  vector_db_ready : Bool

/-- Message role (the `type` field of `Message` in
`ChatInterface.tsx`). -/
inductive MsgRole where
  | user
  | assistant
deriving DecidableEq

/-- One transcript entry (`Message` in `ChatInterface.tsx`);
`timestamp` is the abstract clock value used for ids. -/
structure ChatMessage where
  id : String
  type : MsgRole
  content : String
  timestamp : String
  sources_used : Option Nat

/-- The component state of `ChatInterface` relevant to the modelled
handlers: the `useState` hooks for the API key, the question input,
the transcript, the loading flags, the PDF status and the topic
suggestions. -/
structure FrontendState where
  apiKey : String
  question : String
  messages : List ChatMessage
  isLoading : Bool
  showApiKeyInput : Bool
  isUploading : Bool
  pdfStatus : Option StatusResponse
  topicSuggestions : List String

/-- Outcome of an awaited `fetch`: either the promise resolves with a
response (carrying `response.ok` and `response.status`, whether or not
the HTTP status is OK) or it throws (network failure). -/
inductive FetchOutcome where
  | ok (respOk : Bool) (respStatus : Nat)
  | threw

/-- Translated from `clearPdf` in `ChatInterface.tsx`: the DELETE
`/api/pdf` request is awaited but its response object is never
inspected; whenever the request resolves — with any HTTP status — the
local PDF status, the message list and the topic suggestions are
reset; only a thrown request (network failure) reaches the catch
block, which merely shows a toast and changes no state. -/
def clearPdf (st : FrontendState) (outcome : FetchOutcome) : FrontendState :=
  match outcome with
  | .ok _ _ => { st with pdfStatus := none, messages := [], topicSuggestions := [] }
  | .threw => st

/-- Outcome of the `/api/chat` request inside `sendMessage`: a network
throw, a resolved non-OK response (whose error body is parsed and then
re-thrown into the same catch block), or a resolved OK response with
the parsed answer. -/
inductive ChatFetchOutcome where
  | networkThrow
  | httpError (status : Nat) (detail : Option String)
  | success (answer : String) (sourcesUsed : Nat)

/-- The `pdfStatus?.has_pdf` guard of `ChatInterface.tsx`. -/
def hasPdfLoaded (st : FrontendState) : Bool :=
  match st.pdfStatus with
  | some ps => ps.has_pdf
  | none => false

/-- The user `Message` appended by `sendMessage` before the request is
sent. -/
def userMessage (now question : String) : ChatMessage :=
  { id := now ++ ("_user"), type := .user, content := question,
    timestamp := now, sources_used := none }

/-- The assistant `Message` appended by `sendMessage` on a successful
response. -/
def assistantMessage (now answer : String) (n : Nat) : ChatMessage :=
  { id := now ++ ("_assistant"), type := .assistant, content := answer,
    timestamp := now, sources_used := some n }

/-- Translated from `sendMessage` in `ChatInterface.tsx`.  The guards
mirror the source: an empty (trimmed) question, an empty API key
(which re-opens the key input) or a missing PDF return without any
request.  Otherwise the user message is appended first; a resolved OK
response appends the assistant message, clears the question input and
refreshes the PDF status (the `refreshed` parameter is `some` exactly
when the follow-up `/api/status` request resolved OK — its
fire-and-forget suggestion reload is asynchronous and outside this
synchronous transition); a network failure or a resolved non-OK
response ends in the catch block, leaving the transcript (with the
user message already appended) and the question input untouched.  The
`finally` block always resets the loading flag.  `now` stands for the
`Date.now()` value used for message ids. -/
def sendMessage (st : FrontendState) (now : String) (outcome : ChatFetchOutcome)
    (refreshed : Option StatusResponse) : FrontendState :=
  if trimStr st.question = "" then st
  else if trimStr st.apiKey = "" then { st with showApiKeyInput := true }
  else if hasPdfLoaded st = false then st
  else
    let st1 := { st with
      isLoading := true,
      messages := st.messages ++ [userMessage now st.question] }
    match outcome with
    | .networkThrow => { st1 with isLoading := false }
    | .httpError _ _ => { st1 with isLoading := false }
    | .success answer n =>
      let st2 := { st1 with
        messages := st1.messages ++ [assistantMessage now answer n],
        question := "" }
      let st3 :=
        match refreshed with
        | some ps => { st2 with pdfStatus := some ps }
        | none => st2
      { st3 with isLoading := false }

/-- Outcome of the `/api/upload-pdf` request inside
`handlePdfUpload`. -/
inductive UploadFetchOutcome where
  | networkThrow
  | httpError (status : Nat) (detail : Option String)
  | success (filename : String) (chunkCount : Nat)

/-- Translated from `handlePdfUpload` in `ChatInterface.tsx`: an empty
API key re-opens the key input without any request; a resolved OK
upload clears the chat transcript and the topic suggestions and then
refreshes the PDF status (the `refreshed` parameter, as in
`sendMessage`); an upload failure (thrown request or resolved non-OK
response) ends in the catch block and changes none of them; the
`finally` block always resets the uploading flag. -/
def handlePdfUpload (st : FrontendState) (outcome : UploadFetchOutcome)
    (refreshed : Option StatusResponse) : FrontendState :=
  if trimStr st.apiKey = "" then { st with showApiKeyInput := true }
  else
    let st1 := { st with isUploading := true }
    match outcome with
    | .networkThrow => { st1 with isUploading := false }
    | .httpError _ _ => { st1 with isUploading := false }
    | .success _ _ =>
      let st2 := { st1 with messages := [], topicSuggestions := [] }
      let st3 :=
        match refreshed with
        | some ps => { st2 with pdfStatus := some ps }
        | none => st2
      { st3 with isUploading := false }

/-! ### Definitions: sample values used by concrete witnesses -/

/-- A session with no document loaded (`Empty` state). -/
def emptySession : Session := ⟨none, [], [], false, none⟩

/-- A session whose document is indexed and ready, with an empty
index (a document whose extraction produced no retrievable chunk). -/
def readySession : Session := ⟨some (("f.pdf"), ("doc")), [], [], true, none⟩

/-- A ready session carrying a cached topic-suggestion list. -/
def cachedSession : Session := ⟨some (("f.pdf"), ("doc")), [], [], true, some [("Q1?")]⟩

/-- A ready-for-questions `/api/status` response. -/
def sampleStatus : StatusResponse := ⟨("ready"), true, some (("doc.pdf")), 1, true⟩

/-- A frontend state with a saved API key, a typed question and a
loaded PDF. -/
def sampleFrontend : FrontendState :=
  { apiKey := ("k"), question := ("what"), messages := [], isLoading := false,
    showApiKeyInput := false, isUploading := false,
    pdfStatus := some sampleStatus, topicSuggestions := [("old suggestion")] }

/-! ### Chunker lemmas -/

theorem chunkAux_head (cs step : Nat) :
    ∀ fuel text, text.length ≤ fuel →
      ∃ r, chunkAux cs step fuel text = text.take cs :: r
  | 0, text, h => by
    have htext : text = [] := List.length_eq_zero.mp (Nat.le_zero.mp h)
    subst htext
    exact ⟨[], by simp [chunkAux]⟩
  | fuel + 1, text, _ => by
    by_cases hc : cs < text.length
    · refine ⟨chunkAux cs step fuel (text.drop step), ?_⟩
      simp [chunkAux, hc]
    · refine ⟨[], ?_⟩
      simp [chunkAux, hc, List.take_of_length_le (Nat.le_of_not_lt hc)]

theorem chunkAux_flatten_drop (cs ov step : Nat) (hstep : 0 < step) (hsum : step + ov = cs) :
    ∀ fuel text, text.length ≤ fuel →
      ((chunkAux cs step fuel text).map (List.drop ov)).flatten = text.drop ov
  | 0, text, h => by
    have htext : text = [] := List.length_eq_zero.mp (Nat.le_zero.mp h)
    subst htext
    simp [chunkAux]
  | fuel + 1, text, h => by
    by_cases hc : cs < text.length
    · have hlen : (text.drop step).length ≤ fuel := by
        simp only [List.length_drop]
        omega
      have ih := chunkAux_flatten_drop cs ov step hstep hsum fuel (text.drop step) hlen
      simp only [chunkAux, if_pos hc, List.map_cons, List.flatten_cons, ih]
      have h1 : (text.take cs).drop ov = (text.drop ov).take step := by
        rw [List.drop_take]
        congr 1
        omega
      have h2 : (text.drop step).drop ov = (text.drop ov).drop step := by
        rw [List.drop_drop, List.drop_drop]
        congr 1
        omega
      rw [h1, h2, List.take_append_drop]
    · simp [chunkAux, hc]

theorem reassemble_chunkText (cs ov : Nat) (text : List Char) (hov : ov < cs) :
    reassemble ov (chunkText cs ov text) = text := by
  by_cases h0 : text.length = 0
  · have htext : text = [] := List.length_eq_zero.mp h0
    subst htext
    simp [chunkText, reassemble]
  · have hstep : 0 < cs - ov := by omega
    have hsum : (cs - ov) + ov = cs := by omega
    obtain ⟨fuel, hfuel⟩ : ∃ f, text.length = f + 1 := ⟨text.length - 1, by omega⟩
    rw [chunkText, if_neg h0, hfuel]
    by_cases hc : cs < text.length
    · have heq : chunkAux cs (cs - ov) (fuel + 1) text
          = text.take cs :: chunkAux cs (cs - ov) fuel (text.drop (cs - ov)) := by
        simp [chunkAux, hc]
      rw [heq]
      have hlen : (text.drop (cs - ov)).length ≤ fuel := by
        simp only [List.length_drop]
        omega
      simp only [reassemble]
      rw [chunkAux_flatten_drop cs ov (cs - ov) hstep hsum fuel _ hlen]
      have h2 : (text.drop (cs - ov)).drop ov = text.drop cs := by
        rw [List.drop_drop, hsum]
      rw [h2, List.take_append_drop]
    · have heq : chunkAux cs (cs - ov) (fuel + 1) text = [text] := by
        simp [chunkAux, hc]
      rw [heq]
      simp [reassemble]

theorem chunkAux_overlap (cs ov step : Nat) (hstep : 0 < step) (hsum : step + ov = cs) :
    ∀ fuel text, text.length ≤ fuel →
      ∀ i ci cj, (chunkAux cs step fuel text)[i]? = some ci →
        (chunkAux cs step fuel text)[i + 1]? = some cj →
        ci.length = cs ∧ ci.drop (cs - ov) = cj.take ov ∧ (cj.take ov).length = ov
  | 0, text, hf, i, ci, cj, _, hj => by
    have htext : text = [] := List.length_eq_zero.mp (Nat.le_zero.mp hf)
    subst htext
    simp [chunkAux] at hj
  | fuel + 1, text, hf, i, ci, cj, hi, hj => by
    by_cases hc : cs < text.length
    · have heq : chunkAux cs step (fuel + 1) text
          = text.take cs :: chunkAux cs step fuel (text.drop step) := by
        simp [chunkAux, hc]
      have hlen : (text.drop step).length ≤ fuel := by
        simp only [List.length_drop]
        omega
      match i with
      | 0 =>
        obtain ⟨r, hr⟩ := chunkAux_head cs step fuel (text.drop step) hlen
        have hci : ci = text.take cs := by
          rw [heq] at hi
          simpa using hi.symm
        have hcj : cj = (text.drop step).take cs := by
          rw [heq, hr] at hj
          simpa using hj.symm
        subst hci
        subst hcj
        have hcso : cs - ov = step := by omega
        refine ⟨?_, ?_, ?_⟩
        · simp only [List.length_take]
          omega
        · rw [hcso, List.take_take, List.drop_take]
          congr 1
          omega
        · simp only [List.length_take, List.length_drop]
          omega
      | i + 1 =>
        rw [heq, List.getElem?_cons_succ] at hi hj
        exact chunkAux_overlap cs ov step hstep hsum fuel (text.drop step) hlen i ci cj hi hj
    · have heq : chunkAux cs step (fuel + 1) text = [text] := by
        simp [chunkAux, hc]
      rw [heq] at hj
      simp at hj

/-- C3: for every text and every parameter pair with
`overlap < chunk_size`, re-concatenating the Chunker's output with the
overlapping prefixes removed reproduces the original text exactly;
and each consecutive pair of chunks shares exactly the overlap-length
suffix/prefix (the earlier chunk of such a pair is always full-length,
so its overlap-length suffix is `drop (chunkSize - overlap)`; the
final chunk — the only one at the document boundary — may be
shorter). -/
theorem chunker_overlap_roundtrip (cs ov : Nat) (text : List Char) (hov : ov < cs) :
    reassemble ov (chunkText cs ov text) = text ∧
    ∀ i ci cj, (chunkText cs ov text)[i]? = some ci →
      (chunkText cs ov text)[i + 1]? = some cj →
      ci.length = cs ∧ ci.drop (cs - ov) = cj.take ov ∧ (cj.take ov).length = ov := by
  refine ⟨reassemble_chunkText cs ov text hov, ?_⟩
  intro i ci cj hi hj
  by_cases h0 : text.length = 0
  · rw [chunkText, if_pos h0] at hi
    simp at hi
  · rw [chunkText, if_neg h0] at hi hj
    exact chunkAux_overlap cs ov (cs - ov) (by omega) (by omega)
      text.length text le_rfl i ci cj hi hj

/-- Witness for C3 at a concrete input: `chunk_size = 5`,
`overlap = 2`, text `"abcdefgh"` (chunks `"abcde"`, `"defgh"`). -/
theorem chunker_overlap_roundtrip_holds :
    (2 < 5) ∧
    (reassemble 2 (chunkText 5 2 ['a', 'b', 'c', 'd', 'e', 'f', 'g', 'h'])
        = ['a', 'b', 'c', 'd', 'e', 'f', 'g', 'h'] ∧
      ∀ i ci cj, (chunkText 5 2 ['a', 'b', 'c', 'd', 'e', 'f', 'g', 'h'])[i]? = some ci →
        (chunkText 5 2 ['a', 'b', 'c', 'd', 'e', 'f', 'g', 'h'])[i + 1]? = some cj →
        ci.length = 5 ∧ ci.drop (5 - 2) = cj.take 2 ∧ (cj.take 2).length = 2) :=
  ⟨by decide, chunker_overlap_roundtrip 5 2 ['a', 'b', 'c', 'd', 'e', 'f', 'g', 'h'] (by decide)⟩

/-- C7 (amended): every nonempty input text strictly shorter than
`chunk_size` yields exactly one Chunk equal to the whole input.  (The
empty text yields no chunk at all: the sliding window emits one chunk
per window and there is no window over empty text — emitting one would
produce the zero-length chunk the spec's walk explicitly avoids.) -/
theorem chunkText_short (cs ov : Nat) (text : List Char)
    (hne : text.length ≠ 0) (hlt : text.length < cs) :
    chunkText cs ov text = [text] := by
  obtain ⟨f, hf⟩ : ∃ f, text.length = f + 1 := ⟨text.length - 1, by omega⟩
  rw [chunkText, if_neg hne, hf]
  have hc : ¬ cs < text.length := by omega
  simp [chunkAux, hc]

/-- Counterexample for C7 as stated: the empty text is strictly
shorter than `chunk_size = 1000`, yet the Chunker emits no chunk at
all rather than exactly one chunk equal to the (empty) input. -/
theorem chunkText_empty_counterexample :
    ([] : List Char).length < 1000 ∧ (chunkText 1000 200 ([] : List Char)).length ≠ 1 := by
  decide

/-- Witness for the amended C7 at a concrete input: `"hi"` with the
default parameters yields the single chunk `"hi"`. -/
theorem chunkText_short_holds :
    (['h', 'i'].length ≠ 0) ∧ (['h', 'i'].length < 1000) ∧
      chunkText 1000 200 ['h', 'i'] = [['h', 'i']] :=
  ⟨by decide, by decide, chunkText_short 1000 200 ['h', 'i'] (by decide) (by decide)⟩

/-! ### Similarity lemmas -/

theorem normSq_nonneg (a : List ℚ) : 0 ≤ normSq a := by
  induction a with
  | nil => simp [normSq, dot]
  | cons x t ih =>
    simp only [normSq, dot, List.zipWith_cons_cons, List.sum_cons] at ih ⊢
    nlinarith [sq_nonneg x]

theorem cauchy_step (x y A B d : ℚ) (h : d ^ 2 ≤ A * B) (hA : 0 ≤ A) (hB : 0 ≤ B) :
    (x * y + d) ^ 2 ≤ (x * x + A) * (y * y + B) := by
  rcases eq_or_lt_of_le hB with hB0 | hBpos
  · have h2 : d ^ 2 ≤ 0 := by nlinarith
    have hd0 : d = 0 := by
      have h3 : d ^ 2 = 0 := le_antisymm h2 (sq_nonneg d)
      exact (pow_eq_zero_iff two_ne_zero).mp h3
    subst hd0
    nlinarith [mul_nonneg hA (sq_nonneg y)]
  · have key : B * ((x * x + A) * (y * y + B) - (x * y + d) ^ 2)
        = (x * B - y * d) ^ 2 + (A * B - d ^ 2) * (y * y + B) := by ring
    have hyB : (0 : ℚ) ≤ y * y + B := by nlinarith [sq_nonneg y]
    nlinarith [key, sq_nonneg (x * B - y * d), mul_nonneg (sub_nonneg.mpr h) hyB, hBpos]

theorem dot_sq_le (a : List ℚ) : ∀ b, dot a b ^ 2 ≤ normSq a * normSq b := by
  induction a with
  | nil =>
    intro b
    simp [dot, normSq]
  | cons x t ih =>
    intro b
    cases b with
    | nil => simp [dot, normSq]
    | cons y u =>
      have h := ih u
      have hA := normSq_nonneg t
      have hB := normSq_nonneg u
      simp only [normSq, dot, List.zipWith_cons_cons, List.sum_cons] at h hA hB ⊢
      exact cauchy_step x y _ _ _ h hA hB

theorem simScore_self (a : List ℚ) (h : normSq a ≠ 0) : simScore a a = 1 := by
  have h1 : |dot a a| = dot a a := abs_of_nonneg (normSq_nonneg a)
  rw [simScore, if_neg (by simp [h])]
  simp only [normSq] at h ⊢
  rw [h1]
  exact div_self (mul_ne_zero h h)

theorem simScore_le_one (a b : List ℚ) : simScore a b ≤ 1 := by
  rw [simScore]
  by_cases hz : normSq a = 0 ∨ normSq b = 0
  · rw [if_pos hz]
    exact zero_le_one
  · rw [if_neg hz]
    push_neg at hz
    have hA : 0 < normSq a := (normSq_nonneg a).lt_of_ne (Ne.symm hz.1)
    have hB : 0 < normSq b := (normSq_nonneg b).lt_of_ne (Ne.symm hz.2)
    rw [div_le_one (mul_pos hA hB)]
    have h1 : dot a b * |dot a b| ≤ |dot a b| * |dot a b| :=
      mul_le_mul_of_nonneg_right (le_abs_self _) (abs_nonneg _)
    have h2 : |dot a b| * |dot a b| = dot a b ^ 2 := by
      rw [abs_mul_abs_self]
      ring
    calc dot a b * |dot a b| ≤ dot a b ^ 2 := h2 ▸ h1
      _ ≤ normSq a * normSq b := dot_sq_le a b

/-! ### Vector Index lemmas -/

theorem rankedEntries_pairwise (q : List ℚ) (entries : List (String × List ℚ)) :
    (rankedEntries q entries).Pairwise rankLE :=
  List.sorted_insertionSort rankLE (scoreEntries q entries)

theorem rankedEntries_perm (q : List ℚ) (entries : List (String × List ℚ)) :
    (rankedEntries q entries).Perm (scoreEntries q entries) :=
  List.perm_insertionSort rankLE (scoreEntries q entries)

theorem scoreEntries_le_one (q : List ℚ) (entries : List (String × List ℚ)) :
    ∀ t ∈ scoreEntries q entries, t.2.1 ≤ 1 := by
  intro t ht
  obtain ⟨x, _, rfl⟩ := List.mem_map.mp ht
  exact simScore_le_one q x.2.2

theorem scoreEntries_chunk_mem (q : List ℚ) (entries : List (String × List ℚ)) :
    ∀ t ∈ scoreEntries q entries, ∃ e, (t.1, e) ∈ entries := by
  intro t ht
  obtain ⟨x, hx, rfl⟩ := List.mem_map.mp ht
  obtain ⟨i, hi, hgi⟩ := List.mem_iff_getElem.mp hx
  have hb : i < entries.length := by simpa using hi
  have h2 : (i, entries[i]) = x := by simpa using hgi
  have hmem : entries[i] ∈ entries := List.getElem_mem hb
  have hx2 : x.2 = entries[i] := by
    rw [← h2]
  refine ⟨x.2.2, ?_⟩
  rw [hx2]
  exact hmem

theorem retrieveChunks_subset (q : List ℚ) (es : List (String × List ℚ)) (k : Nat)
    (threshold : ℚ) :
    ∀ p ∈ retrieveChunks q es k threshold, ∃ e, (p.1, e) ∈ es := by
  intro p hp
  rw [retrieveChunks] at hp
  have hp1 := List.mem_of_mem_filter hp
  rw [queryVec] at hp1
  obtain ⟨t, ht, rfl⟩ := List.mem_map.mp hp1
  have ht1 : t ∈ rankedEntries q es := List.mem_of_mem_take ht
  have ht2 : t ∈ scoreEntries q es := (rankedEntries_perm q es).mem_iff.mp ht1
  exact scoreEntries_chunk_mem q es t ht2

/-- C1: for every query text and every `k`, `query` returns at most
`k` (chunk, score) pairs, sorted by non-increasing score (on the
order-isomorphic signed-square scale of the cosine), with ties broken
by original chunk order (lower chunk index first, stated on the
index-tagged ranking that `query` projects); and whenever the index
contains a chunk whose embedding is that of the query text — in
particular a chunk whose text is identical to the query text — and the
query embedding is not the zero vector, the first returned pair
carries the maximal similarity 1. -/
theorem query_top_k (embedFn : String → List ℚ) (entries : List (String × List ℚ))
    (text : String) (k : Nat) :
    (query embedFn entries text k).length ≤ k ∧
    (query embedFn entries text k).Pairwise (fun p1 p2 => p2.2 ≤ p1.2) ∧
    ((rankedEntries (embedFn text) entries).take k).Pairwise
      (fun t1 t2 => t1.2.1 = t2.2.1 → t1.2.2 ≤ t2.2.2) ∧
    ∀ c e, (c, e) ∈ entries → e = embedFn text → normSq (embedFn text) ≠ 0 → 0 < k →
      ∃ p, (query embedFn entries text k).head? = some p ∧ p.2 = 1 ∧
        ∀ p2 ∈ query embedFn entries text k, p2.2 ≤ 1 := by
  have hsorted := rankedEntries_pairwise (embedFn text) entries
  have htake : ((rankedEntries (embedFn text) entries).take k).Pairwise rankLE :=
    List.Pairwise.sublist (List.take_sublist k _) hsorted
  refine ⟨?_, ?_, ?_, ?_⟩
  · simp only [query, queryVec, List.length_map, List.length_take]
    omega
  · rw [query, queryVec, List.pairwise_map]
    refine htake.imp ?_
    intro t1 t2 hr
    rcases hr with h | ⟨h, _⟩
    · exact le_of_lt h
    · exact le_of_eq h.symm
  · refine htake.imp ?_
    intro t1 t2 hr heq
    rcases hr with h | ⟨_, h⟩
    · exact absurd h (by rw [heq]; exact lt_irrefl _)
    · exact h
  · intro c e hce he hq hk
    have h1 : simScore (embedFn text) e = 1 := by
      rw [he]
      exact simScore_self (embedFn text) hq
    obtain ⟨i, hi, hgi⟩ := List.mem_iff_getElem.mp hce
    have hb : i < entries.enum.length := by simpa using hi
    have hen : entries.enum[i] = (i, (c, e)) := by simp [hgi]
    have hmem0 : (i, (c, e)) ∈ entries.enum := hen ▸ List.getElem_mem hb
    have hmem1 : (c, simScore (embedFn text) e, i) ∈ scoreEntries (embedFn text) entries :=
      List.mem_map.mpr ⟨(i, (c, e)), hmem0, rfl⟩
    rw [h1] at hmem1
    have hperm := rankedEntries_perm (embedFn text) entries
    have hmemr : (c, (1 : ℚ), i) ∈ rankedEntries (embedFn text) entries :=
      hperm.mem_iff.mpr hmem1
    have hallr : ∀ t ∈ rankedEntries (embedFn text) entries, t.2.1 ≤ 1 := by
      intro t ht
      exact scoreEntries_le_one (embedFn text) entries t (hperm.mem_iff.mp ht)
    obtain ⟨hd, tl, hht⟩ : ∃ hd tl, rankedEntries (embedFn text) entries = hd :: tl := by
      cases hr : rankedEntries (embedFn text) entries with
      | nil =>
        rw [hr] at hmemr
        simp at hmemr
      | cons a l => exact ⟨a, l, rfl⟩
    have hhd1 : hd.2.1 = 1 := by
      have hle : hd.2.1 ≤ 1 := hallr hd (by rw [hht]; exact List.mem_cons_self hd tl)
      have hge : (1 : ℚ) ≤ hd.2.1 := by
        rw [hht] at hmemr
        rcases List.mem_cons.mp hmemr with h | h
        · rw [← h]
        · have hpc := hsorted
          rw [hht] at hpc
          have hrel := (List.pairwise_cons.mp hpc).1 _ h
          rcases hrel with hlt | ⟨heq, _⟩
          · exact le_of_lt hlt
          · exact le_of_eq heq.symm
      linarith
    obtain ⟨k1, hk1⟩ : ∃ k1, k = k1 + 1 := ⟨k - 1, by omega⟩
    refine ⟨(hd.1, hd.2.1), ?_, hhd1, ?_⟩
    · simp [query, queryVec, hht, hk1]
    · intro p2 hp2
      simp only [query, queryVec, List.mem_map] at hp2
      obtain ⟨t, ht, rfl⟩ := hp2
      exact hallr t (List.mem_of_mem_take ht)

/-- Witness for C1 at a concrete input: a one-entry index whose single
chunk has exactly the query's embedding `[1]`, queried with `k = 1`. -/
theorem query_top_k_holds :
    ∃ p, (query (fun _ => [(1 : ℚ)]) [("a", [(1 : ℚ)])] ("a") 1).head? = some p ∧ p.2 = 1 ∧
      ∀ p2 ∈ query (fun _ => [(1 : ℚ)]) [("a", [(1 : ℚ)])] ("a") 1, p2.2 ≤ 1 :=
  (query_top_k (fun _ => [(1 : ℚ)]) [("a", [(1 : ℚ)])] ("a") 1).2.2.2
    ("a") [(1 : ℚ)] (by simp) rfl (by norm_num [normSq, dot]) (by norm_num)

/-! ### Session State lemmas -/

theorem buildIndex_some (embedFn : String → Option (List ℚ)) :
    ∀ chunks es, buildIndex embedFn chunks = some es →
      es.map Prod.fst = chunks ∧ ∀ p ∈ es, embedFn p.1 = some p.2
  | [], es, h => by
    simp only [buildIndex, Option.some.injEq] at h
    subst h
    simp
  | c :: rest, es, h => by
    simp only [buildIndex] at h
    cases he : embedFn c with
    | none =>
      rw [he] at h
      cases hb : buildIndex embedFn rest with
      | none =>
        rw [hb] at h
        simp at h
      | some es0 =>
        rw [hb] at h
        simp at h
    | some e =>
      cases hb : buildIndex embedFn rest with
      | none =>
        rw [he, hb] at h
        simp at h
      | some es0 =>
        rw [he, hb] at h
        simp only [Option.some.injEq] at h
        subst h
        obtain ⟨ih1, ih2⟩ := buildIndex_some embedFn rest es0 hb
        refine ⟨by simp [ih1], ?_⟩
        intro p hp
        rcases List.mem_cons.mp hp with hp1 | hp1
        · subst hp1
          exact he
        · exact ih2 p hp1

/-- C6: `build` is atomic with respect to failure — either it fully
succeeds, reports `built`, and the index afterwards contains exactly
one (chunk, embedding) pair per chunk, in order, each embedding being
the one the embedding client returned for its chunk; or it fails,
reports `indexBuildError`, and the session is left exactly in its
previous state, so a partially built index is never observable by any
query. -/
theorem buildSession_atomic (embedFn : String → Option (List ℚ)) (s : Session) :
    (∃ es, buildIndex embedFn s.chunks = some es ∧
      buildSession embedFn s = ({ s with entries := es, indexReady := true }, .built) ∧
      es.map Prod.fst = s.chunks ∧ ∀ p ∈ es, embedFn p.1 = some p.2) ∨
    (buildIndex embedFn s.chunks = none ∧
      buildSession embedFn s = (s, .indexBuildError)) := by
  cases hb : buildIndex embedFn s.chunks with
  | none =>
    refine Or.inr ⟨rfl, ?_⟩
    simp [buildSession, hb]
  | some es =>
    obtain ⟨h1, h2⟩ := buildIndex_some embedFn s.chunks es hb
    refine Or.inl ⟨es, rfl, ?_, h1, h2⟩
    simp [buildSession, hb]

/-- Witness for C6 at a concrete input: an embedding client that
fails on every chunk leaves a one-chunk session exactly as it was and
reports the build error. -/
theorem buildSession_atomic_holds :
    buildSession (fun _ => none) ⟨some (("f.pdf"), ("doc")), [("c")], [], false, none⟩
        = (⟨some (("f.pdf"), ("doc")), [("c")], [], false, none⟩, .indexBuildError) := by
  rcases buildSession_atomic (fun _ => none)
      ⟨some (("f.pdf"), ("doc")), [("c")], [], false, none⟩ with ⟨es, hsome, _⟩ | ⟨_, h2⟩
  · simp [buildIndex] at hsome
  · exact h2

/-- C2: whenever the Retrieval Result for a question is empty — every
ranked chunk scores strictly below the minimum-relevance threshold,
which in particular covers a document whose index holds no entries at
all — `ask` answers exactly the sentinel `"I am not sure."` with
`sources_used = 0`, and the generation model is not invoked: the
short-circuit is local. -/
theorem askSession_sentinel (embedFn : String → Option (List ℚ))
    (genFn : String → List String → String) (k : Nat) (threshold : ℚ)
    (s : Session) (question : String) (d : String × String)
    (es : List (String × List ℚ)) (q : List ℚ)
    (hdoc : s.doc = some d)
    (hidx : (if s.indexReady then some s.entries else buildIndex embedFn s.chunks) = some es)
    (hemb : embedFn question = some q)
    (hbelow : ∀ p ∈ queryVec q es k, p.2 < threshold) :
    askSession embedFn genFn k threshold s question
      = ({ s with entries := es, indexReady := true },
         .answered ("I am not sure.") 0, false) := by
  have hfil : retrieveChunks q es k threshold = [] := by
    rw [retrieveChunks, List.filter_eq_nil_iff]
    intro p hp
    simp only [decide_eq_true_eq]
    exact not_le.mpr (hbelow p hp)
  simp [askSession, hdoc, hidx, hemb, hfil]

/-- Witness for C2 at a concrete input: a ready session whose index
holds no entries (so every retrieval is empty). -/
theorem askSession_sentinel_holds :
    askSession (fun _ => some [(1 : ℚ)]) (fun _ _ => ("")) 3 (1 / 2) readySession ("q")
      = ({ readySession with entries := [], indexReady := true },
         .answered ("I am not sure.") 0, false) :=
  askSession_sentinel (fun _ => some [(1 : ℚ)]) (fun _ _ => ("")) 3 (1 / 2) readySession
    ("q") (("f.pdf"), ("doc")) [] [(1 : ℚ)] rfl rfl rfl
    (by simp [queryVec, rankedEntries, scoreEntries, readySession])

/-- C4: a question asked while the session is in the `Empty` state (no
document loaded) is rejected with the structured `noDocumentError`:
the session is unchanged, the generation model is not invoked and no
generated answer of any form is produced.  The frontend mirrors the
guard (`ChatInterface.tsx`, the `!pdfStatus?.has_pdf` check in
`sendMessage`): with no loaded PDF nothing is sent and the component
state is unchanged. -/
theorem askSession_empty_rejected (embedFn : String → Option (List ℚ))
    (genFn : String → List String → String) (k : Nat) (threshold : ℚ)
    (s : Session) (question : String) (h : s.doc = none) :
    askSession embedFn genFn k threshold s question = (s, .noDocumentError, false) ∧
    (∀ a n, (askSession embedFn genFn k threshold s question).2.1 ≠ .answered a n) ∧
    (∀ st now outcome refreshed, trimStr st.question ≠ ("") → trimStr st.apiKey ≠ ("") →
      hasPdfLoaded st = false → sendMessage st now outcome refreshed = st) := by
  have h1 : askSession embedFn genFn k threshold s question = (s, .noDocumentError, false) := by
    simp [askSession, h]
  refine ⟨h1, ?_, ?_⟩
  · intro a n
    rw [h1]
    simp
  · intro st now outcome refreshed hq hk hp
    simp only [sendMessage, if_neg hq, if_neg hk, if_pos hp]

/-- Witness for C4 at a concrete input: the empty session and, on the
frontend, a state with a typed question and API key but no PDF. -/
theorem askSession_empty_rejected_holds :
    askSession (fun _ => some [(1 : ℚ)]) (fun _ _ => ("")) 3 (1 / 2) emptySession ("q")
        = (emptySession, .noDocumentError, false) ∧
      sendMessage { sampleFrontend with pdfStatus := none } ("17") .networkThrow none
        = { sampleFrontend with pdfStatus := none } := by
  have h := askSession_empty_rejected (fun _ => some [(1 : ℚ)]) (fun _ _ => ("")) 3 (1 / 2)
    emptySession ("q") rfl
  exact ⟨h.1, h.2.2 { sampleFrontend with pdfStatus := none } ("17") .networkThrow none
    (by decide) (by decide) rfl⟩

/-- Counterexample for C5 as stated: uploading onto an active session
leaves the Vector Index empty, because the rebuild is lazy (§4.7) and
only runs on the next question — so immediately after the upload
completes the index does not contain one entry per chunk of the new
document (here: zero entries but one chunk). -/
theorem uploadSession_lazy_counterexample :
    ¬ ((uploadSession ⟨some (("old.pdf"), ("old text")), [("old text")],
          [(("old text"), [(1 : ℚ)])], true, some [("Old?")]⟩
        ("new.pdf") ("hello")).entries.map Prod.fst
      = (uploadSession ⟨some (("old.pdf"), ("old text")), [("old text")],
          [(("old text"), [(1 : ℚ)])], true, some [("Old?")]⟩
        ("new.pdf") ("hello")).chunks) := by
  decide

/-- C5 (amended): uploading a new document while one is active
replaces the session state wholesale — every chunk, index entry and
cached suggestion (and, on the frontend, every transcript message and
displayed suggestion) tied to the previous document is discarded, so
no chunk of the prior document is retrievable by any query afterwards;
the Vector Index itself is emptied and marked not ready (the rebuild
is lazy), and once the rebuild runs, its entries pair exactly the new
document's chunks, so any chunk retrievable by any query then belongs
to the new active document. -/
theorem uploadSession_replaces (s : Session) (filename text : String) :
    (uploadSession s filename text).entries = [] ∧
    (uploadSession s filename text).indexReady = false ∧
    (uploadSession s filename text).suggestions = none ∧
    (uploadSession s filename text).chunks = chunkString 1000 200 text ∧
    (∀ q k threshold, retrieveChunks q (uploadSession s filename text).entries k threshold = []) ∧
    (∀ embedFn es, buildIndex embedFn (uploadSession s filename text).chunks = some es →
      ∀ q k threshold p, p ∈ retrieveChunks q es k threshold →
        p.1 ∈ chunkString 1000 200 text) ∧
    (∀ st refreshed fn cc, trimStr st.apiKey ≠ ("") →
      (handlePdfUpload st (.success fn cc) refreshed).messages = [] ∧
      (handlePdfUpload st (.success fn cc) refreshed).topicSuggestions = []) := by
  refine ⟨rfl, rfl, rfl, rfl, ?_, ?_, ?_⟩
  · intro q k threshold
    simp [retrieveChunks, queryVec, rankedEntries, scoreEntries, uploadSession]
  · intro embedFn es hb q k threshold p hp
    obtain ⟨e, he⟩ := retrieveChunks_subset q es k threshold p hp
    have h1 := (buildIndex_some embedFn _ es hb).1
    have h2 : p.1 ∈ es.map Prod.fst := List.mem_map.mpr ⟨(p.1, e), he, rfl⟩
    rw [h1] at h2
    exact h2
  · intro st refreshed fn cc hk
    simp only [handlePdfUpload, if_neg hk]
    cases refreshed <;> simp

/-- Witness for the amended C5 at a concrete input: upload of
`"hello"` onto a session that held a fully indexed document with a
cached suggestion. -/
theorem uploadSession_replaces_holds :
    (uploadSession cachedSession ("new.pdf") ("hello")).suggestions = none ∧
    retrieveChunks [(1 : ℚ)]
        (uploadSession cachedSession ("new.pdf") ("hello")).entries 3 (1 / 2) = [] ∧
    ((("hello"), (1 : ℚ)) : String × ℚ).1 ∈ chunkString 1000 200 ("hello") := by
  have h := uploadSession_replaces cachedSession ("new.pdf") ("hello")
  have hret : retrieveChunks [(1 : ℚ)] [(("hello"), [(1 : ℚ)])] 3 (1 / 2)
      = [(("hello"), (1 : ℚ))] := by
    norm_num [retrieveChunks, queryVec, rankedEntries, scoreEntries, simScore, normSq, dot]
  refine ⟨h.2.2.1, h.2.2.2.2.1 [(1 : ℚ)] 3 (1 / 2), ?_⟩
  refine h.2.2.2.2.2.1 (fun _ => some [(1 : ℚ)]) [(("hello"), [(1 : ℚ)])] rfl
    [(1 : ℚ)] 3 (1 / 2) ((("hello"), (1 : ℚ))) ?_
  rw [hret]
  simp

/-- C8: `suggest_topics` never propagates an error — with no document,
or on a generation failure, it returns the empty suggestion list and
leaves the session unchanged — and it is idempotent per document: a
cached result is returned as-is without invoking the generation model
unless regeneration is explicitly forced, and after a successful
generation the parsed list is cached so that the repeated call returns
exactly the cached list without regenerating. -/
theorem suggestTopics_soft_idempotent (genFn : List String → GenResult)
    (sample : List String → List String) :
    (∀ s, s.doc = none → s.suggestions = none →
      suggestTopics genFn sample s false = (s, [], false)) ∧
    (∀ s d force, s.doc = some d → (s.suggestions = none ∨ force = true) →
      genFn (sample s.chunks) = .genError →
      suggestTopics genFn sample s force = (s, [], true)) ∧
    (∀ s cached, s.suggestions = some cached →
      suggestTopics genFn sample s false = (s, cached, false)) ∧
    (∀ s d resp, s.doc = some d → s.suggestions = none →
      genFn (sample s.chunks) = .ok resp →
      suggestTopics genFn sample s false
          = ({ s with suggestions := some (parseSuggestions resp) },
             parseSuggestions resp, true) ∧
      suggestTopics genFn sample { s with suggestions := some (parseSuggestions resp) } false
          = ({ s with suggestions := some (parseSuggestions resp) },
             parseSuggestions resp, false)) := by
  refine ⟨?_, ?_, ?_, ?_⟩
  · intro s hdoc hsug
    simp [suggestTopics, hdoc, hsug]
  · intro s d force hdoc hor hgen
    cases hsug : s.suggestions with
    | none => cases force <;> simp [suggestTopics, hdoc, hsug, hgen]
    | some cached =>
      cases force with
      | false =>
        exfalso
        rcases hor with hcontra | hcontra
        · rw [hsug] at hcontra
          exact Option.noConfusion hcontra
        · simp at hcontra
      | true => simp [suggestTopics, hdoc, hsug, hgen]
  · intro s cached hsug
    simp [suggestTopics, hsug]
  · intro s d resp hdoc hsug hgen
    constructor
    · simp [suggestTopics, hdoc, hsug, hgen]
    · simp [suggestTopics]

/-- Witness for C8 at concrete inputs: a generation failure on an
empty and on a ready session, and a cache hit on a session carrying a
cached list. -/
theorem suggestTopics_soft_idempotent_holds :
    suggestTopics (fun _ => .genError) id emptySession false = (emptySession, [], false) ∧
    suggestTopics (fun _ => .genError) id readySession true = (readySession, [], true) ∧
    suggestTopics (fun _ => .genError) id cachedSession false
        = (cachedSession, [("Q1?")], false) := by
  have h := suggestTopics_soft_idempotent (fun _ => .genError) id
  exact ⟨h.1 emptySession rfl rfl,
    h.2.1 readySession (("f.pdf"), ("doc")) true rfl (Or.inr rfl) rfl,
    h.2.2.1 cachedSession [("Q1?")] rfl⟩

/-! ### Frontend lemmas -/

/-- C9: whenever the DELETE `/api/pdf` request of `clearPdf` resolves —
with any HTTP status, since the handler never inspects the response —
the local PDF status, message list and topic suggestions are all reset
to empty while every other field is untouched; the local state is left
entirely unchanged exactly when the request itself throws. -/
theorem clearPdf_resets (st : FrontendState) :
    (∀ respOk respStatus,
      (clearPdf st (.ok respOk respStatus)).pdfStatus = none ∧
      (clearPdf st (.ok respOk respStatus)).messages = [] ∧
      (clearPdf st (.ok respOk respStatus)).topicSuggestions = [] ∧
      (clearPdf st (.ok respOk respStatus)).apiKey = st.apiKey ∧
      (clearPdf st (.ok respOk respStatus)).question = st.question ∧
      (clearPdf st (.ok respOk respStatus)).isLoading = st.isLoading ∧
      (clearPdf st (.ok respOk respStatus)).showApiKeyInput = st.showApiKeyInput ∧
      (clearPdf st (.ok respOk respStatus)).isUploading = st.isUploading ∧
      clearPdf st (.ok respOk respStatus) = clearPdf st (.ok true 200)) ∧
    clearPdf st .threw = st := by
  refine ⟨?_, rfl⟩
  intro respOk respStatus
  exact ⟨rfl, rfl, rfl, rfl, rfl, rfl, rfl, rfl, rfl⟩

/-- C10: when the `/api/chat` request of `sendMessage` fails — a
network throw or a resolved non-OK HTTP response — the user message
already appended to the transcript stays there and the question input
keeps its text unchanged; only a successful response, after appending
the assistant message, clears the question input. -/
theorem sendMessage_failure_keeps (st : FrontendState) (now : String)
    (hq : trimStr st.question ≠ ("")) (hk : trimStr st.apiKey ≠ (""))
    (hp : hasPdfLoaded st = true) :
    (∀ refreshed,
      (sendMessage st now .networkThrow refreshed).messages
          = st.messages ++ [userMessage now st.question] ∧
      (sendMessage st now .networkThrow refreshed).question = st.question) ∧
    (∀ status detail refreshed,
      (sendMessage st now (.httpError status detail) refreshed).messages
          = st.messages ++ [userMessage now st.question] ∧
      (sendMessage st now (.httpError status detail) refreshed).question = st.question) ∧
    (∀ answer n refreshed,
      (sendMessage st now (.success answer n) refreshed).question = ("") ∧
      (sendMessage st now (.success answer n) refreshed).messages
          = st.messages ++ [userMessage now st.question, assistantMessage now answer n]) := by
  have hp2 : ¬ (hasPdfLoaded st = false) := by simp [hp]
  refine ⟨?_, ?_, ?_⟩
  · intro refreshed
    exact ⟨by simp [sendMessage, hq, hk, hp2], by simp [sendMessage, hq, hk, hp2]⟩
  · intro status detail refreshed
    exact ⟨by simp [sendMessage, hq, hk, hp2], by simp [sendMessage, hq, hk, hp2]⟩
  · intro answer n refreshed
    cases refreshed with
    | none => exact ⟨by simp [sendMessage, hq, hk, hp2], by simp [sendMessage, hq, hk, hp2]⟩
    | some ps => exact ⟨by simp [sendMessage, hq, hk, hp2], by simp [sendMessage, hq, hk, hp2]⟩

/-- Witness for C10 at a concrete input: a failing request on a state
with a typed question, a saved key and a loaded PDF. -/
theorem sendMessage_failure_keeps_holds :
    (sendMessage sampleFrontend ("17") .networkThrow none).messages
        = sampleFrontend.messages ++ [userMessage ("17") sampleFrontend.question] ∧
    (sendMessage sampleFrontend ("17") .networkThrow none).question
        = sampleFrontend.question :=
  (sendMessage_failure_keeps sampleFrontend ("17") (by decide) (by decide) rfl).1 none

end RagChat
